import Mathlib

/-!
Verification of the BinarySignal repository (src/StockBinaryComparison.py and
src/signal2.py).  The switching backtest engine, the execution model, the
price-series aligner and the one-shot signal decision are embedded as
executable Lean definitions over exact rationals; dates are modelled as
integer day numbers, so a pandas `(dt - last).days` difference is plain
integer subtraction.  Fallible float division is modelled with `Except`:
the engine returns `Except.error zeroDivisionMsg` exactly where the Python
code would raise a `ZeroDivisionError`.
-/

namespace BinarySignal

/-- One row of the aligned daily table: both assets' open and close for a date. -/
structure Row where
  date : Int
  open1 : ℚ
  close1 : ℚ
  open2 : ℚ
  close2 : ℚ
deriving DecidableEq, Repr

/-- `TradeParams` from StockBinaryComparison.py. -/
structure TradeParams where
  hysteresis_bps : ℚ
  cooldown_days : Int
  fee_bps : ℚ
  slippage_bps : ℚ
deriving DecidableEq, Repr

/-- The mutable portfolio variables of the active loop of `backtest_switching`. -/
structure EngineState where
  shares1 : Int
  shares2 : Int
  cash : ℚ
  holding1 : Bool
  last_switch_date : Option Int
deriving DecidableEq, Repr

/-- One output row of the engine (one per date).  `equity_active` and
`pos_flag` are the columns of the Python results frame; `r1`, `r2` and
`edge_bps` additionally record the overnight returns and edge the loop
computed for that date. -/
structure DailyRow where
  date : Int
  equity_active : ℚ
  pos_flag : Int
  r1 : ℚ
  r2 : ℚ
  edge_bps : ℚ
deriving DecidableEq, Repr

/-- A record of one executed switch, capturing the intermediate values of the
sell-then-buy block of `backtest_switching` (loop index, decision inputs and
the cash level after the buy notional and after the buy-leg fee). -/
structure SwitchRec where
  idx : Nat
  date : Int
  edge_bps : ℚ
  holding1_before : Bool
  target_is_2 : Bool
  close1_today : ℚ
  close2_today : ℚ
  buy_px : ℚ
  cash_before_buy : ℚ
  new_shares : Int
  cash_after_notional : ℚ
  cash_after_buyleg : ℚ
  hit : Bool
deriving DecidableEq, Repr

/-- The loop accumulator: portfolio state plus the lists the loop grows. -/
structure Acc where
  st : EngineState
  rows : List DailyRow
  switches : Nat
  turnover : ℚ
  hits : List Bool
  log : List SwitchRec
deriving DecidableEq, Repr

/-- The `stats` dictionary of `backtest_switching`; `hitRate = none` models the
NaN produced when no switch was recorded. -/
structure Stats where
  switches : Nat
  turnover : ℚ
  hitRate : Option ℚ
  hits : List Bool
  log : List SwitchRec
deriving DecidableEq, Repr

/-- The message of a Python float division by zero. -/
def zeroDivisionMsg : String := "ZeroDivisionError: float division by zero"

/-- Python's `str.lower()` on the ASCII side strings used by the code. -/
def pyLower (s : String) : String :=
  String.mk (s.data.map Char.toLower)

/-- Python's `str.upper()` on the ASCII holding strings used by signal2.py. -/
def pyUpper (s : String) : String :=
  String.mk (s.data.map Char.toUpper)

/-- `exec_price` (StockBinaryComparison.py lines 96-104): apply slippage,
buy at `open * (1 + s)`, any other side sells at `open * (1 - s)`. -/
def exec_price (open_px slippage_bps : ℚ) (side : String) : ℚ :=
  let s := slippage_bps / 10000
  if pyLower side = "buy" then open_px * (1 + s) else open_px * (1 - s)

/-- `fee_on_notional` (lines 107-111): commission as bps of absolute notional. -/
def fee_on_notional (notional fee_bps : ℚ) : ℚ :=
  |notional| * (fee_bps / 10000)

/-- The per-date switch decision of `backtest_switching` (lines 232-241):
starting from `(False, False)`, when `i > 0` and the cooldown allows, a held
asset 1 switches on `edge_bps > hysteresis_bps` and a held asset 2 switches
on `edge_bps < -hysteresis_bps`.  Returns `(do_switch, target_is_2)`. -/
def decide_switch (i : Nat) (holding1 : Bool) (edge_bps hysteresis_bps : ℚ)
    (cooldown_ok : Bool) : Bool × Bool :=
  if 0 < i ∧ cooldown_ok = true then
    if holding1 = true ∧ hysteresis_bps < edge_bps then (true, true)
    else if holding1 = false ∧ edge_bps < -hysteresis_bps then (true, false)
    else (false, false)
  else (false, false)

/-- Line 235: `(last_switch_date is None) or ((dt - last_switch_date).days >= cooldown_days)`. -/
def cooldownOk (params : TradeParams) (st : EngineState) (row : Row) : Bool :=
  match st.last_switch_date with
  | none => true
  | some d => decide (params.cooldown_days ≤ row.date - d)

/-- The daily result row appended when no switch happens (lines 289-292):
mark-to-close on the unchanged state. -/
def holdDaily (st : EngineState) (row : Row) (r1 r2 e : ℚ) : DailyRow :=
  { date := row.date
    equity_active := (st.shares1 : ℚ) * row.close1 + (st.shares2 : ℚ) * row.close2 + st.cash
    pos_flag := if st.holding1 then 1 else -1
    r1 := r1
    r2 := r2
    edge_bps := e }

/-- The sell leg (lines 244-258): liquidate the held asset at the open with
slippage, pay the fee.  Returns `(cash_after, shares1, shares2, sell_notional)`. -/
def sellLeg (params : TradeParams) (row : Row) (st : EngineState) :
    ℚ × Int × Int × ℚ :=
  if st.holding1 then
    let sell_px := exec_price row.open1 params.slippage_bps "sell"
    let notional := (st.shares1 : ℚ) * sell_px
    (st.cash + notional - fee_on_notional notional params.fee_bps, 0, st.shares2, notional)
  else
    let sell_px := exec_price row.open2 params.slippage_bps "sell"
    let notional := (st.shares2 : ℚ) * sell_px
    (st.cash + notional - fee_on_notional notional params.fee_bps, st.shares1, 0, notional)

/-- The buy-leg execution price (lines 262 and 271). -/
def buyPx (params : TradeParams) (row : Row) (t2 : Bool) : ℚ :=
  exec_price (if t2 then row.open2 else row.open1) params.slippage_bps "buy"

/-- The record of the buy leg following `sellLeg` (lines 260-278) and of the
hit observation (lines 283-287): buy the target with all cash at the buy
price, `new_shares = floor(cash / buy_px)`, subtract the notional and then
the fee from cash; the hit compares the two same-day closes. -/
def switchRecOf (params : TradeParams) (i : Nat) (row : Row) (st : EngineState)
    (e : ℚ) (t2 : Bool) : SwitchRec :=
  let sell := sellLeg params row st
  let cash1 := sell.1
  let bpx := buyPx params row t2
  let new_shares : Int := ⌊cash1 / bpx⌋
  let buyNotional := (new_shares : ℚ) * bpx
  let cash_after_notional := cash1 - buyNotional
  let cash2 := cash_after_notional - fee_on_notional buyNotional params.fee_bps
  { idx := i
    date := row.date
    edge_bps := e
    holding1_before := st.holding1
    target_is_2 := t2
    close1_today := row.close1
    close2_today := row.close2
    buy_px := bpx
    cash_before_buy := cash1
    new_shares := new_shares
    cash_after_notional := cash_after_notional
    cash_after_buyleg := cash2
    hit :=
      if t2 then decide (1 < row.close2 / row.close1)
      else decide (1 < row.close1 / row.close2) }

/-- The accumulator after a full switch (lines 243-287): sell leg, buy all
cash into the target with floored integer shares, fee on each leg, update
holding and `last_switch_date`, record the same-day hit observation, then
mark-to-close. -/
def switchAcc (params : TradeParams) (i : Nat) (row : Row) (acc : Acc)
    (r1 r2 e : ℚ) (t2 : Bool) : Acc :=
  let st := acc.st
  let sell := sellLeg params row st
  let srec := switchRecOf params i row st e t2
  let shares1' := if t2 then sell.2.1 else sell.2.1 + srec.new_shares
  let shares2' := if t2 then sell.2.2.1 + srec.new_shares else sell.2.2.1
  let daily : DailyRow :=
    { date := row.date
      equity_active :=
        (shares1' : ℚ) * row.close1 + (shares2' : ℚ) * row.close2 + srec.cash_after_buyleg
      pos_flag := if !t2 then 1 else -1
      r1 := r1
      r2 := r2
      edge_bps := e }
  { st := { shares1 := shares1'
            shares2 := shares2'
            cash := srec.cash_after_buyleg
            holding1 := !t2
            last_switch_date := some row.date }
    rows := acc.rows ++ [daily]
    switches := acc.switches + 1
    turnover := acc.turnover + |sell.2.2.2| + |(srec.new_shares : ℚ) * srec.buy_px|
    hits := if 0 < i then acc.hits ++ [srec.hit] else acc.hits
    log := acc.log ++ [srec] }

/-- One loop body of `backtest_switching` after the overnight returns `r1`,
`r2` and the edge `e` are known: decide, execute, mark-to-close.  A zero buy
price or a zero denominator in the hit observation is a float division by
zero in the Python code. -/
def stepCore (params : TradeParams) (i : Nat) (row : Row) (acc : Acc)
    (r1 r2 e : ℚ) : Except String Acc :=
  if (decide_switch i acc.st.holding1 e params.hysteresis_bps (cooldownOk params acc.st row)).1 then
    if buyPx params row (decide_switch i acc.st.holding1 e params.hysteresis_bps (cooldownOk params acc.st row)).2 = 0 then
      Except.error zeroDivisionMsg
    else if 0 < i ∧
        (if (decide_switch i acc.st.holding1 e params.hysteresis_bps (cooldownOk params acc.st row)).2 then row.close1 else row.close2) = 0 then
      Except.error zeroDivisionMsg
    else
      Except.ok (switchAcc params i row acc r1 r2 e
        (decide_switch i acc.st.holding1 e params.hysteresis_bps (cooldownOk params acc.st row)).2)
  else
    Except.ok { acc with rows := acc.rows ++ [holdDaily acc.st row r1 r2 e] }

/-- One loop iteration (lines 215-292): for the first row both returns and
the edge are zero; afterwards `r_i = (open_i(t) - close_i(t-1)) / close_i(t-1)`
and `edge = (r2 - r1) * 10000`, failing like Python when a previous close is
zero. -/
def stepRow (params : TradeParams) (i : Nat) (prev : Option Row) (row : Row)
    (acc : Acc) : Except String Acc :=
  match prev with
  | none => stepCore params i row acc 0 0 0
  | some p =>
      if p.close1 = 0 then Except.error zeroDivisionMsg
      else if p.close2 = 0 then Except.error zeroDivisionMsg
      else
        let r1 := (row.open1 - p.close1) / p.close1
        let r2 := (row.open2 - p.close2) / p.close2
        stepCore params i row acc r1 r2 ((r2 - r1) * 10000)

/-- The active loop over the aligned table, threading the previous row and
the loop index. -/
def runRows (params : TradeParams) :
    Option Row → Nat → Acc → List Row → Except String Acc
  | _, _, acc, [] => Except.ok acc
  | prev, i, acc, row :: rest =>
      match stepRow params i prev row acc with
      | Except.error e => Except.error e
      | Except.ok acc' => runRows params (some row) (i + 1) acc' rest

/-- Initial accumulator (lines 204-213): starting shares and cash,
`holding1 = shares1_init > 0`, no prior switch, empty output lists. -/
def initAcc (shares1_init shares2_init : Int) (cash_init : ℚ) : Acc :=
  { st := { shares1 := shares1_init
            shares2 := shares2_init
            cash := cash_init
            holding1 := decide (0 < shares1_init)
            last_switch_date := none }
    rows := []
    switches := 0
    turnover := 0
    hits := []
    log := [] }

/-- The final `stats` dictionary (lines 301-305): the hit rate is the mean of
the boolean hit list, NaN (here `none`) when the list is empty. -/
def mkStats (acc : Acc) : Stats :=
  { switches := acc.switches
    turnover := acc.turnover
    hitRate :=
      if acc.hits.isEmpty then none
      else some ((acc.hits.count true : ℚ) / (acc.hits.length : ℚ))
    hits := acc.hits
    log := acc.log }

/-- `backtest_switching` (lines 168-306) restricted to its active loop and
stats: run the per-date state machine over the aligned table. -/
def backtest_switching (data : List Row) (shares1_init shares2_init : Int)
    (cash_init : ℚ) (params : TradeParams) :
    Except String (List DailyRow × Stats) :=
  match runRows params none 0 (initAcc shares1_init shares2_init cash_init) data with
  | Except.error e => Except.error e
  | Except.ok acc => Except.ok (acc.rows, mkStats acc)

/-- The vectorized passive equity series (lines 194-201):
`shares1_init * close1 + shares2_init * close2 + cash_init` per date. -/
def passive_equity (data : List Row) (shares1_init shares2_init : Int)
    (cash_init : ℚ) : List (Int × ℚ) :=
  data.map (fun r =>
    (r.date, (shares1_init : ℚ) * r.close1 + (shares2_init : ℚ) * r.close2 + cash_init))

/-- The edge (in bps) the engine computes for a date whose predecessor row is
`p`: the difference of the two overnight returns times 10000. -/
def edgeOf (p r : Row) : ℚ :=
  ((r.open2 - p.close2) / p.close2 - (r.open1 - p.close1) / p.close1) * 10000

/-- A raw per-asset price row before alignment; `none` models a missing value. -/
structure RawRow where
  date : Int
  opn : Option ℚ
  cls : Option ℚ
deriving DecidableEq, Repr

/-- A joined row before the NaN drop. -/
structure JoinedRow where
  date : Int
  o1 : Option ℚ
  c1 : Option ℚ
  o2 : Option ℚ
  c2 : Option ℚ
deriving DecidableEq, Repr

/-- The inner join of `align_two` (line 69): every left row pairs with every
right row of the same date. -/
def joinInner (left right : List RawRow) : List JoinedRow :=
  (left.map (fun l =>
    (right.filter (fun r => r.date = l.date)).map (fun r =>
      { date := l.date, o1 := l.opn, c1 := l.cls, o2 := r.opn, c2 := r.cls }))).flatten

/-- Stable insertion into a date-sorted list. -/
def insertByDate (x : JoinedRow) : List JoinedRow → List JoinedRow
  | [] => [x]
  | y :: ys => if x.date ≤ y.date then x :: y :: ys else y :: insertByDate x ys

/-- `sort_index()` of line 69: stable sort by date. -/
def sortByDate (l : List JoinedRow) : List JoinedRow :=
  l.foldr insertByDate []

/-- `dropna()` of line 69: keep only rows with all four values present. -/
def dropNa (l : List JoinedRow) : List Row :=
  l.filterMap (fun j =>
    match j.o1, j.c1, j.o2, j.c2 with
    | some a, some b, some c, some d =>
        some { date := j.date, open1 := a, close1 := b, open2 := c, close2 := d }
    | _, _, _, _ => none)

/-- Lines 70-71: drop duplicate dates keeping the first occurrence. -/
def dedupKeepFirst (seen : List Int) : List Row → List Row
  | [] => []
  | r :: rs =>
      if r.date ∈ seen then dedupKeepFirst seen rs
      else r :: dedupKeepFirst (r.date :: seen) rs

/-- `align_two` (lines 64-72): inner-join by date, sort, drop missing values,
remove duplicate dates keeping the first.  It never raises: an empty input
simply yields an empty aligned table. -/
def align_two (left right : List RawRow) : List Row :=
  dedupKeepFirst [] (dropNa (sortByDate (joinInner left right)))

/-- The one-shot switch decision of signal2.py (lines 88-108): overnight
returns from previous close to today's open, edge in bps, switch away from A
on `edge_bps > delta`, away from B on `-edge_bps > delta`.  Returns `true`
when the action is a switch. -/
def signal2_decision (oA cA oB cB : ℚ) (holding : String) (delta : ℚ) : Bool :=
  let rA := (oA - cA) / cA
  let rB := (oB - cB) / cB
  let edge_bps := (rB - rA) * 10000
  if pyUpper holding = "A" then decide (delta < edge_bps)
  else decide (delta < -edge_bps)

/-- Projection: the daily rows of a successful run. -/
def runDaily (data : List Row) (shares1_init shares2_init : Int)
    (cash_init : ℚ) (params : TradeParams) : Option (List DailyRow) :=
  (backtest_switching data shares1_init shares2_init cash_init params).toOption.map Prod.fst

/-- Projection: the stats of a successful run. -/
def runStats (data : List Row) (shares1_init shares2_init : Int)
    (cash_init : ℚ) (params : TradeParams) : Option Stats :=
  (backtest_switching data shares1_init shares2_init cash_init params).toOption.map Prod.snd

/-- Projection: the switch count of a successful run. -/
def runSwitchCount (data : List Row) (shares1_init shares2_init : Int)
    (cash_init : ℚ) (params : TradeParams) : Option Nat :=
  (runStats data shares1_init shares2_init cash_init params).map Stats.switches

/-- Projection: the marked-to-close active equity curve of a successful run. -/
def dailyPoint (d : DailyRow) : Int × ℚ :=
  (d.date, d.equity_active)

/-- Projection: the `(date, Equity_Active)` curve of a successful run. -/
def runActiveCurve (data : List Row) (shares1_init shares2_init : Int)
    (cash_init : ℚ) (params : TradeParams) : Option (List (Int × ℚ)) :=
  (runDaily data shares1_init shares2_init cash_init params).map (List.map dailyPoint)

/-- Projection: the per-date edges recorded by a successful run. -/
def runEdges (data : List Row) (shares1_init shares2_init : Int)
    (cash_init : ℚ) (params : TradeParams) : Option (List ℚ) :=
  (runDaily data shares1_init shares2_init cash_init params).map (List.map DailyRow.edge_bps)

/-- The daily rows a non-switching run produces for the rows after the
first, given the predecessor row for the edge computation. -/
def holdTail (st : EngineState) : Row → List Row → List DailyRow
  | _, [] => []
  | p, row :: rest =>
      holdDaily st row ((row.open1 - p.close1) / p.close1)
        ((row.open2 - p.close2) / p.close2) (edgeOf p row) :: holdTail st row rest

/-- The daily rows a non-switching run produces for a whole table. -/
def holdAll (st : EngineState) : List Row → List DailyRow
  | [] => []
  | r :: rest => holdDaily st r 0 0 0 :: holdTail st r rest

/-! ### Concrete scenarios used by witnesses and counterexamples -/

/-- Witness scenario: three days, asset 2 jumps on day 1 and asset 1 jumps
on day 2, producing two switches one calendar day apart. -/
def wrow0 : Row := { date := 0, open1 := 100, close1 := 100, open2 := 5, close2 := 5 }

/-- Second day of the witness scenario. -/
def wrow1 : Row := { date := 1, open1 := 100, close1 := 90, open2 := 6, close2 := 6 }

/-- Third day of the witness scenario. -/
def wrow2 : Row := { date := 2, open1 := 99, close1 := 95, open2 := 6, close2 := 6 }

/-- The witness table. -/
def dataW : List Row := [wrow0, wrow1, wrow2]

/-- Witness parameters: no hysteresis, one-day cooldown, no fees or slippage. -/
def pW : TradeParams :=
  { hysteresis_bps := 0, cooldown_days := 1, fee_bps := 0, slippage_bps := 0 }

/-- Witness parameters with an unreachable threshold. -/
def pW6 : TradeParams :=
  { hysteresis_bps := 1000000000, cooldown_days := 7, fee_bps := 0, slippage_bps := 0 }

/-- The switch executed on day 1 of the witness run. -/
def recW1 : SwitchRec :=
  { idx := 1, date := 1, edge_bps := 2000, holding1_before := true, target_is_2 := true,
    close1_today := 90, close2_today := 6, buy_px := 6, cash_before_buy := 100,
    new_shares := 16, cash_after_notional := 4, cash_after_buyleg := 4, hit := false }

/-- The switch executed on day 2 of the witness run. -/
def recW2 : SwitchRec :=
  { idx := 2, date := 2, edge_bps := -1000, holding1_before := false, target_is_2 := false,
    close1_today := 95, close2_today := 6, buy_px := 99, cash_before_buy := 100,
    new_shares := 1, cash_after_notional := 1, cash_after_buyleg := 1, hit := true }

/-- The daily rows of the witness run. -/
def resW : List DailyRow :=
  [{ date := 0, equity_active := 100, pos_flag := 1, r1 := 0, r2 := 0, edge_bps := 0 },
   { date := 1, equity_active := 100, pos_flag := -1, r1 := 0, r2 := 1/5, edge_bps := 2000 },
   { date := 2, equity_active := 96, pos_flag := 1, r1 := 1/10, r2 := 0, edge_bps := -1000 }]

/-- The stats of the witness run. -/
def statsW : Stats :=
  { switches := 2, turnover := 391, hitRate := some (1/2), hits := [false, true],
    log := [recW1, recW2] }

/-- First day of the fee-overdraw scenario. -/
def c1a : Row := { date := 0, open1 := 400, close1 := 400, open2 := 100, close2 := 100 }

/-- Second day of the fee-overdraw scenario: asset 2 jumps, a switch fires. -/
def c1b : Row := { date := 1, open1 := 400, close1 := 400, open2 := 160, close2 := 160 }

/-- Parameters of the fee-overdraw scenario: a 2000 bps fee per leg. -/
def pC1 : TradeParams :=
  { hysteresis_bps := 0, cooldown_days := 7, fee_bps := 2000, slippage_bps := 0 }

/-- The single switch of the fee-overdraw run: the buy-leg fee pushes cash
to -64 although the share count was floored. -/
def recC1 : SwitchRec :=
  { idx := 1, date := 1, edge_bps := 6000, holding1_before := true, target_is_2 := true,
    close1_today := 400, close2_today := 160, buy_px := 160, cash_before_buy := 320,
    new_shares := 2, cash_after_notional := 0, cash_after_buyleg := -64, hit := false }

/-- The stats of the fee-overdraw run. -/
def statsC1 : Stats :=
  { switches := 1, turnover := 720, hitRate := some 0, hits := [false], log := [recC1] }

/-- First day of the negative-previous-close scenario: `close1 = -1`. -/
def c2a : Row := { date := 0, open1 := 1, close1 := -1, open2 := 1, close2 := 1 }

/-- Second day of the negative-previous-close scenario. -/
def c2b : Row := { date := 1, open1 := 1, close1 := 1, open2 := 1, close2 := 1 }

/-- Parameters with an unreachable threshold for that scenario. -/
def pC2 : TradeParams :=
  { hysteresis_bps := 1000000000, cooldown_days := 7, fee_bps := 0, slippage_bps := 0 }

/-- The edges the engine computes for the rows after the first, given the
predecessor row of the first of them. -/
def edgesTail : Row → List Row → List ℚ
  | _, [] => []
  | p, row :: rest => edgeOf p row :: edgesTail row rest

/-- The per-date edges the engine computes for a whole table: zero on the
first date, the overnight-return difference afterwards. -/
def edgesOf : List Row → List ℚ
  | [] => []
  | r :: rest => 0 :: edgesTail r rest

/-- The daily rows of the fee-overdraw run. -/
def resC1 : List DailyRow :=
  [{ date := 0, equity_active := 400, pos_flag := 1, r1 := 0, r2 := 0, edge_bps := 0 },
   { date := 1, equity_active := 256, pos_flag := -1, r1 := 0, r2 := 3/5, edge_bps := 6000 }]

/-- A first day with a zero close for asset 1. -/
def c2z : Row := { date := 0, open1 := 1, close1 := 0, open2 := 1, close2 := 1 }

/-- Expected day-0 row of the negative-previous-close run. -/
def dC2a : DailyRow :=
  { date := 0, equity_active := -1, pos_flag := 1, r1 := 0, r2 := 0, edge_bps := 0 }

/-- Expected day-1 row of the negative-previous-close run: the ratio `-2`
computed from the negative close is propagated into an edge of 20000 bps. -/
def dC2b : DailyRow :=
  { date := 1, equity_active := 1, pos_flag := 1, r1 := -2, r2 := 0, edge_bps := 20000 }

/-- A raw price row with data present, used to exercise `align_two`. -/
def rawEx : RawRow := { date := 0, opn := some 1, cls := some 2 }

/-- The expected first daily row of any run: zero returns and zero edge,
initial holdings marked to the first close, position flag `+1` iff
`shares1_init > 0`. -/
def firstDaily (first : Row) (s1 s2 : Int) (cash : ℚ) : DailyRow :=
  { date := first.date
    equity_active := (s1 : ℚ) * first.close1 + (s2 : ℚ) * first.close2 + cash
    pos_flag := if 0 < s1 then 1 else -1
    r1 := 0
    r2 := 0
    edge_bps := 0 }

/-! ### Helper lemmas -/

theorem pyLower_buy : pyLower "buy" = "buy" := rfl

theorem pyLower_sell : pyLower "sell" = "sell" := rfl

theorem sell_ne_buy : ("sell" : String) ≠ "buy" := by decide

theorem pyUpper_A : pyUpper "A" = "A" := rfl

theorem pyUpper_B : pyUpper "B" = "B" := rfl

theorem b_ne_a : ("B" : String) ≠ "A" := by decide

theorem exec_price_buy (o s : ℚ) : exec_price o s "buy" = o * (1 + s / 10000) := by
  simp [exec_price, pyLower_buy]

theorem exec_price_sell (o s : ℚ) : exec_price o s "sell" = o * (1 - s / 10000) := by
  simp [exec_price, pyLower_sell, sell_ne_buy]

theorem buyPx_pos {params : TradeParams} {row : Row} {t2 : Bool}
    (ho1 : 0 < row.open1) (ho2 : 0 < row.open2)
    (hs : -10000 < params.slippage_bps) : 0 < buyPx params row t2 := by
  have hq : 0 < 1 + params.slippage_bps / 10000 := by
    have : -1 < params.slippage_bps / 10000 := by
      rw [show (-1 : ℚ) = -10000 / 10000 by norm_num]
      exact div_lt_div_of_pos_right hs (by norm_num)
    linarith
  rw [buyPx, exec_price_buy]
  cases t2 <;> simp only [if_true, if_false, Bool.false_eq_true] <;> positivity

theorem decide_switch_zero (h : Bool) (e hy : ℚ) (c : Bool) :
    decide_switch 0 h e hy c = (false, false) := by
  simp [decide_switch]

theorem decide_switch_fst_pos {i : Nat} {h : Bool} {e hy : ℚ} {c : Bool}
    (hds : (decide_switch i h e hy c).1 = true) : 0 < i ∧ c = true := by
  by_cases hic : 0 < i ∧ c = true
  · exact hic
  · rw [decide_switch, if_neg hic] at hds
    exact absurd hds (by simp)

theorem decide_switch_fst_char {i : Nat} {h : Bool} {e hy : ℚ} {c : Bool}
    (hds : (decide_switch i h e hy c).1 = true) :
    (h = true ∧ hy < e ∧ (decide_switch i h e hy c).2 = true) ∨
    (h = false ∧ e < -hy ∧ (decide_switch i h e hy c).2 = false) := by
  by_cases h1 : 0 < i ∧ c = true
  · by_cases h2 : h = true ∧ hy < e
    · exact Or.inl ⟨h2.1, h2.2, by rw [decide_switch, if_pos h1, if_pos h2]⟩
    · by_cases h3 : h = false ∧ e < -hy
      · exact Or.inr ⟨h3.1, h3.2, by rw [decide_switch, if_pos h1, if_neg h2, if_pos h3]⟩
      · rw [decide_switch, if_pos h1, if_neg h2, if_neg h3] at hds
        exact absurd hds (by simp)
  · rw [decide_switch, if_neg h1] at hds
    exact absurd hds (by simp)

theorem decide_switch_abs_le {i : Nat} {h c : Bool} {e hy : ℚ} (hle : |e| ≤ hy) :
    decide_switch i h e hy c = (false, false) := by
  have h2 : ¬(h = true ∧ hy < e) := by
    rintro ⟨-, hlt⟩
    exact absurd hlt (not_lt.mpr ((le_abs_self e).trans hle))
  have h3 : ¬(h = false ∧ e < -hy) := by
    rintro ⟨-, hlt⟩
    have : hy < -e := by linarith
    exact absurd this (not_lt.mpr ((neg_le_abs e).trans hle))
  by_cases h1 : 0 < i ∧ c = true
  · rw [decide_switch, if_pos h1, if_neg h2, if_neg h3]
  · rw [decide_switch, if_neg h1]

theorem stepCore_hold {params : TradeParams} {i : Nat} {row : Row} {acc : Acc}
    {r1 r2 e : ℚ}
    (hds : (decide_switch i acc.st.holding1 e params.hysteresis_bps
      (cooldownOk params acc.st row)).1 = false) :
    stepCore params i row acc r1 r2 e =
      Except.ok { acc with rows := acc.rows ++ [holdDaily acc.st row r1 r2 e] } := by
  rw [stepCore, hds]
  rfl

theorem stepCore_ok_inv {params : TradeParams} {i : Nat} {row : Row} {acc : Acc}
    {r1 r2 e : ℚ} {acc' : Acc}
    (h : stepCore params i row acc r1 r2 e = Except.ok acc') :
    ((decide_switch i acc.st.holding1 e params.hysteresis_bps
        (cooldownOk params acc.st row)).1 = true ∧
      acc' = switchAcc params i row acc r1 r2 e
        (decide_switch i acc.st.holding1 e params.hysteresis_bps
          (cooldownOk params acc.st row)).2) ∨
    acc' = { acc with rows := acc.rows ++ [holdDaily acc.st row r1 r2 e] } := by
  by_cases hds : (decide_switch i acc.st.holding1 e params.hysteresis_bps
      (cooldownOk params acc.st row)).1 = true
  · left
    refine ⟨hds, ?_⟩
    rw [stepCore, hds] at h
    simp only [if_true] at h
    by_cases hb : buyPx params row (decide_switch i acc.st.holding1 e params.hysteresis_bps
        (cooldownOk params acc.st row)).2 = 0
    · rw [if_pos hb] at h
      exact absurd h (by simp)
    · rw [if_neg hb] at h
      by_cases hd : 0 < i ∧
          (if (decide_switch i acc.st.holding1 e params.hysteresis_bps
            (cooldownOk params acc.st row)).2 then row.close1 else row.close2) = 0
      · rw [if_pos hd] at h
        exact absurd h (by simp)
      · rw [if_neg hd] at h
        exact (Except.ok.inj h).symm
  · right
    rw [Bool.not_eq_true] at hds
    rw [stepCore, hds] at h
    simp only [Bool.false_eq_true, if_false] at h
    exact (Except.ok.inj h).symm

theorem stepRow_ok_inv {params : TradeParams} {i : Nat} {prev : Option Row}
    {row : Row} {acc : Acc} {acc' : Acc}
    (h : stepRow params i prev row acc = Except.ok acc') :
    ∃ r1 r2 e, stepCore params i row acc r1 r2 e = Except.ok acc' := by
  cases prev with
  | none => exact ⟨0, 0, 0, h⟩
  | some p =>
      by_cases h1 : p.close1 = 0
      · simp [stepRow, h1] at h
      · by_cases h2 : p.close2 = 0
        · simp [stepRow, h1, h2] at h
        · exact ⟨_, _, _, by simpa [stepRow, h1, h2] using h⟩

theorem runRows_preserve (params : TradeParams) (P : Acc → Prop) (Q : Row → Prop)
    (hstep : ∀ (i : Nat) (prev : Option Row) (row : Row) (acc acc' : Acc),
      Q row → P acc → stepRow params i prev row acc = Except.ok acc' → P acc') :
    ∀ (rows : List Row) (prev : Option Row) (i : Nat) (acc acc' : Acc),
      (∀ r ∈ rows, Q r) → P acc →
      runRows params prev i acc rows = Except.ok acc' → P acc' := by
  intro rows
  induction rows with
  | nil =>
      intro prev i acc acc' _ hP h
      simp only [runRows] at h
      exact (Except.ok.inj h) ▸ hP
  | cons row rest ih =>
      intro prev i acc acc' hQ hP h
      rw [runRows] at h
      cases hs : stepRow params i prev row acc with
      | error msg => rw [hs] at h; exact absurd h (by simp)
      | ok acc1 =>
          rw [hs] at h
          exact ih (some row) (i + 1) acc1 acc'
            (fun r hr => hQ r (List.mem_cons_of_mem _ hr))
            (hstep i prev row acc acc1 (hQ row (List.mem_cons_self _ _)) hP hs) h

theorem backtest_ok_inv {data : List Row} {s1 s2 : Int} {cash : ℚ}
    {params : TradeParams} {res : List DailyRow} {stats : Stats}
    (h : backtest_switching data s1 s2 cash params = Except.ok (res, stats)) :
    ∃ accF, runRows params none 0 (initAcc s1 s2 cash) data = Except.ok accF ∧
      res = accF.rows ∧ stats = mkStats accF := by
  rw [backtest_switching] at h
  cases hr : runRows params none 0 (initAcc s1 s2 cash) data with
  | error msg => rw [hr] at h; exact absurd h (by simp)
  | ok accF =>
      rw [hr] at h
      have h' := Except.ok.inj h
      exact ⟨accF, rfl, congrArg Prod.fst h'.symm, congrArg Prod.snd h'.symm⟩

theorem runRows_cons_ok {params : TradeParams} {i : Nat} {prev : Option Row}
    {row : Row} {acc acc1 : Acc}
    (h : stepRow params i prev row acc = Except.ok acc1) (rest : List Row) :
    runRows params prev i acc (row :: rest) =
      runRows params (some row) (i + 1) acc1 rest := by
  rw [runRows, h]

theorem stepRow_some_hold {params : TradeParams} {i : Nat} {p row : Row} {acc : Acc}
    (hc1 : p.close1 ≠ 0) (hc2 : p.close2 ≠ 0)
    (hedge : |edgeOf p row| ≤ params.hysteresis_bps) :
    stepRow params i (some p) row acc =
      Except.ok { acc with rows := acc.rows ++
        [holdDaily acc.st row ((row.open1 - p.close1) / p.close1)
          ((row.open2 - p.close2) / p.close2) (edgeOf p row)] } := by
  show (if p.close1 = 0 then Except.error zeroDivisionMsg
    else if p.close2 = 0 then Except.error zeroDivisionMsg
    else
      let r1 := (row.open1 - p.close1) / p.close1
      let r2 := (row.open2 - p.close2) / p.close2
      stepCore params i row acc r1 r2 ((r2 - r1) * 10000)) = _
  rw [if_neg hc1, if_neg hc2]
  exact stepCore_hold (congrArg Prod.fst (decide_switch_abs_le hedge))

theorem runRows_hold_tail (params : TradeParams) :
    ∀ (rows : List Row) (p : Row) (i : Nat) (acc : Acc),
      p.close1 ≠ 0 ∧ p.close2 ≠ 0 →
      (∀ r ∈ rows, r.close1 ≠ 0 ∧ r.close2 ≠ 0) →
      List.Chain' (fun x y => |edgeOf x y| ≤ params.hysteresis_bps) (p :: rows) →
      runRows params (some p) i acc rows =
        Except.ok { acc with rows := acc.rows ++ holdTail acc.st p rows } := by
  intro rows
  induction rows with
  | nil =>
      intro p i acc _ _ _
      simp [runRows, holdTail]
  | cons row rest ih =>
      intro p i acc hp hz hc
      rw [runRows_cons_ok (stepRow_some_hold hp.1 hp.2 (List.chain'_cons.mp hc).1) rest]
      rw [ih row (i + 1) _ (hz row (List.mem_cons_self _ _))
        (fun r hr => hz r (List.mem_cons_of_mem _ hr)) (List.chain'_cons.mp hc).2]
      simp [holdTail, List.append_assoc]

theorem runRows_hold_all (params : TradeParams) (data : List Row)
    (hz : ∀ r ∈ data, r.close1 ≠ 0 ∧ r.close2 ≠ 0)
    (hc : List.Chain' (fun x y => |edgeOf x y| ≤ params.hysteresis_bps) data)
    (acc : Acc) :
    runRows params none 0 acc data =
      Except.ok { acc with rows := acc.rows ++ holdAll acc.st data } := by
  cases data with
  | nil => simp [runRows, holdAll]
  | cons r rest =>
      have h1 : stepRow params 0 none r acc =
          Except.ok { acc with rows := acc.rows ++ [holdDaily acc.st r 0 0 0] } :=
        stepCore_hold (by rw [decide_switch_zero])
      rw [runRows_cons_ok h1 rest]
      rw [runRows_hold_tail params rest r 1 _ (hz r (List.mem_cons_self _ _))
        (fun x hx => hz x (List.mem_cons_of_mem _ hx)) hc]
      simp [holdAll, List.append_assoc]

theorem holdTail_curve (st : EngineState) :
    ∀ (rows : List Row) (p : Row),
      (holdTail st p rows).map dailyPoint =
        rows.map (fun r =>
          (r.date, (st.shares1 : ℚ) * r.close1 + (st.shares2 : ℚ) * r.close2 + st.cash)) := by
  intro rows
  induction rows with
  | nil => intro p; rfl
  | cons row rest ih =>
      intro p
      simp [holdTail, holdDaily, dailyPoint, ih row]

theorem holdAll_curve (st : EngineState) (rows : List Row) :
    (holdAll st rows).map dailyPoint =
      rows.map (fun r =>
        (r.date, (st.shares1 : ℚ) * r.close1 + (st.shares2 : ℚ) * r.close2 + st.cash)) := by
  cases rows with
  | nil => rfl
  | cons r rest => simp [holdAll, holdDaily, dailyPoint, holdTail_curve]

theorem stepRow_some_nonzero {params : TradeParams} {i : Nat} {p row : Row} {acc : Acc}
    (h1 : p.close1 ≠ 0) (h2 : p.close2 ≠ 0) :
    stepRow params i (some p) row acc =
      stepCore params i row acc ((row.open1 - p.close1) / p.close1)
        ((row.open2 - p.close2) / p.close2) (edgeOf p row) := by
  show (if p.close1 = 0 then Except.error zeroDivisionMsg
    else if p.close2 = 0 then Except.error zeroDivisionMsg
    else
      let r1 := (row.open1 - p.close1) / p.close1
      let r2 := (row.open2 - p.close2) / p.close2
      stepCore params i row acc r1 r2 ((r2 - r1) * 10000)) = _
  rw [if_neg h1, if_neg h2]
  rfl

theorem stepCore_error_msg {params : TradeParams} {i : Nat} {row : Row} {acc : Acc}
    {r1 r2 e : ℚ} {msg : String}
    (h : stepCore params i row acc r1 r2 e = Except.error msg) :
    msg = zeroDivisionMsg := by
  rw [stepCore] at h
  by_cases hds : (decide_switch i acc.st.holding1 e params.hysteresis_bps
      (cooldownOk params acc.st row)).1 = true
  · rw [if_pos hds] at h
    by_cases hbp : buyPx params row (decide_switch i acc.st.holding1 e
        params.hysteresis_bps (cooldownOk params acc.st row)).2 = 0
    · rw [if_pos hbp] at h
      exact (Except.error.inj h).symm
    · rw [if_neg hbp] at h
      by_cases hdn : 0 < i ∧
          (if (decide_switch i acc.st.holding1 e params.hysteresis_bps
            (cooldownOk params acc.st row)).2 then row.close1 else row.close2) = 0
      · rw [if_pos hdn] at h
        exact (Except.error.inj h).symm
      · rw [if_neg hdn] at h
        exact absurd h (by simp)
  · rw [Bool.not_eq_true] at hds
    rw [hds] at h
    simp only [Bool.false_eq_true, if_false] at h
    exact absurd h (by simp)

theorem stepRow_error_msg {params : TradeParams} {i : Nat} {prev : Option Row}
    {row : Row} {acc : Acc} {msg : String}
    (h : stepRow params i prev row acc = Except.error msg) :
    msg = zeroDivisionMsg := by
  cases prev with
  | none => exact stepCore_error_msg h
  | some p =>
      by_cases h1 : p.close1 = 0
      · rw [show stepRow params i (some p) row acc = Except.error zeroDivisionMsg from
          by simp [stepRow, h1]] at h
        exact (Except.error.inj h).symm
      · by_cases h2 : p.close2 = 0
        · rw [show stepRow params i (some p) row acc = Except.error zeroDivisionMsg from
            by simp [stepRow, h1, h2]] at h
          exact (Except.error.inj h).symm
        · rw [stepRow_some_nonzero h1 h2] at h
          exact stepCore_error_msg h

theorem runRows_zero_abort (params : TradeParams) :
    ∀ (rows : List Row) (prev : Option Row) (i : Nat) (acc : Acc),
      ((∃ p, prev = some p ∧ (p.close1 = 0 ∨ p.close2 = 0) ∧ rows ≠ []) ∨
        (∃ q ∈ rows.dropLast, q.close1 = 0 ∨ q.close2 = 0)) →
      runRows params prev i acc rows = Except.error zeroDivisionMsg := by
  intro rows
  induction rows with
  | nil =>
      intro prev i acc hdef
      rcases hdef with ⟨p, -, -, hne⟩ | ⟨q, hq, -⟩
      · exact absurd rfl hne
      · exact absurd hq (by simp)
  | cons row rest ih =>
      intro prev i acc hdef
      rcases hdef with ⟨p, hprev, hz, -⟩ | ⟨q, hq, hz⟩
      · subst hprev
        have herr : stepRow params i (some p) row acc = Except.error zeroDivisionMsg := by
          rcases hz with hz1 | hz2
          · simp [stepRow, hz1]
          · by_cases hz1 : p.close1 = 0
            · simp [stepRow, hz1]
            · simp [stepRow, hz1, hz2]
        rw [runRows, herr]
      · have hrest : rest ≠ [] := by
          intro hr
          subst hr
          exact absurd hq (by simp)
        obtain ⟨r', rest', rfl⟩ := List.exists_cons_of_ne_nil hrest
        rw [List.dropLast_cons₂] at hq
        cases hs : stepRow params i prev row acc with
        | error msg =>
            have hmsg := stepRow_error_msg hs
            subst hmsg
            rw [runRows, hs]
        | ok acc1 =>
            rw [runRows, hs]
            rcases List.mem_cons.mp hq with heq | hmem
            · exact ih (some row) (i + 1) acc1 (Or.inl ⟨row, rfl, heq ▸ hz, by simp⟩)
            · exact ih (some row) (i + 1) acc1 (Or.inr ⟨q, hmem, hz⟩)

theorem switchAcc_log (params : TradeParams) (i : Nat) (row : Row) (acc : Acc)
    (r1 r2 e : ℚ) (t2 : Bool) :
    (switchAcc params i row acc r1 r2 e t2).log =
      acc.log ++ [switchRecOf params i row acc.st e t2] := rfl

theorem switchAcc_st (params : TradeParams) (i : Nat) (row : Row) (acc : Acc)
    (r1 r2 e : ℚ) (t2 : Bool) :
    (switchAcc params i row acc r1 r2 e t2).st.last_switch_date = some row.date := rfl

theorem switchAcc_switches (params : TradeParams) (i : Nat) (row : Row) (acc : Acc)
    (r1 r2 e : ℚ) (t2 : Bool) :
    (switchAcc params i row acc r1 r2 e t2).switches = acc.switches + 1 := rfl

theorem switchAcc_hits (params : TradeParams) (i : Nat) (row : Row) (acc : Acc)
    (r1 r2 e : ℚ) (t2 : Bool) :
    (switchAcc params i row acc r1 r2 e t2).hits =
      (if 0 < i then acc.hits ++ [(switchRecOf params i row acc.st e t2).hit]
       else acc.hits) := rfl

theorem switchAcc_rows (params : TradeParams) (i : Nat) (row : Row) (acc : Acc)
    (r1 r2 e : ℚ) (t2 : Bool) :
    ∃ d, (switchAcc params i row acc r1 r2 e t2).rows = acc.rows ++ [d] := ⟨_, rfl⟩

theorem switchAcc_rows_edge (params : TradeParams) (i : Nat) (row : Row) (acc : Acc)
    (r1 r2 e : ℚ) (t2 : Bool) :
    ∃ d, (switchAcc params i row acc r1 r2 e t2).rows = acc.rows ++ [d] ∧
      d.edge_bps = e := ⟨_, rfl, rfl⟩

theorem switchRecOf_idx (params : TradeParams) (i : Nat) (row : Row)
    (st : EngineState) (e : ℚ) (t2 : Bool) :
    (switchRecOf params i row st e t2).idx = i := rfl

theorem switchRecOf_date (params : TradeParams) (i : Nat) (row : Row)
    (st : EngineState) (e : ℚ) (t2 : Bool) :
    (switchRecOf params i row st e t2).date = row.date := rfl

theorem switchRecOf_decision_fields (params : TradeParams) (i : Nat) (row : Row)
    (st : EngineState) (e : ℚ) (t2 : Bool) :
    (switchRecOf params i row st e t2).edge_bps = e ∧
    (switchRecOf params i row st e t2).holding1_before = st.holding1 ∧
    (switchRecOf params i row st e t2).target_is_2 = t2 := ⟨rfl, rfl, rfl⟩

theorem switchRecOf_buy_fields (params : TradeParams) (i : Nat) (row : Row)
    (st : EngineState) (e : ℚ) (t2 : Bool) :
    (switchRecOf params i row st e t2).cash_before_buy = (sellLeg params row st).1 ∧
    (switchRecOf params i row st e t2).buy_px = buyPx params row t2 ∧
    (switchRecOf params i row st e t2).new_shares =
      ⌊(sellLeg params row st).1 / buyPx params row t2⌋ ∧
    (switchRecOf params i row st e t2).cash_after_notional =
      (sellLeg params row st).1 -
        ((⌊(sellLeg params row st).1 / buyPx params row t2⌋ : Int) : ℚ) *
          buyPx params row t2 ∧
    (switchRecOf params i row st e t2).cash_after_buyleg =
      (switchRecOf params i row st e t2).cash_after_notional -
        fee_on_notional
          (((switchRecOf params i row st e t2).new_shares : ℚ) * buyPx params row t2)
          params.fee_bps := ⟨rfl, rfl, rfl, rfl, rfl⟩

theorem stepCore_ok_edge (params : TradeParams) (i : Nat) (row : Row) (acc : Acc)
    (r1 r2 e : ℚ)
    (hc1 : row.close1 ≠ 0) (hc2 : row.close2 ≠ 0)
    (ho1 : 0 < row.open1) (ho2 : 0 < row.open2)
    (hs : -10000 < params.slippage_bps) :
    ∃ acc', stepCore params i row acc r1 r2 e = Except.ok acc' ∧
      acc'.rows.map DailyRow.edge_bps =
        acc.rows.map DailyRow.edge_bps ++ [e] := by
  by_cases hds : (decide_switch i acc.st.holding1 e params.hysteresis_bps
      (cooldownOk params acc.st row)).1 = true
  · have hbp : buyPx params row (decide_switch i acc.st.holding1 e params.hysteresis_bps
        (cooldownOk params acc.st row)).2 ≠ 0 := (buyPx_pos ho1 ho2 hs).ne'
    have hden : ¬(0 < i ∧
        (if (decide_switch i acc.st.holding1 e params.hysteresis_bps
          (cooldownOk params acc.st row)).2 then row.close1 else row.close2) = 0) := by
      rintro ⟨-, hd⟩
      cases htt : (decide_switch i acc.st.holding1 e params.hysteresis_bps
          (cooldownOk params acc.st row)).2 with
      | false =>
          rw [htt] at hd
          simp only [Bool.false_eq_true, if_false] at hd
          exact hc2 hd
      | true =>
          rw [htt] at hd
          simp only [if_true] at hd
          exact hc1 hd
    refine ⟨switchAcc params i row acc r1 r2 e
      (decide_switch i acc.st.holding1 e params.hysteresis_bps
        (cooldownOk params acc.st row)).2, ?_, ?_⟩
    · rw [stepCore, hds]
      simp only [if_true]
      rw [if_neg hbp, if_neg hden]
    · obtain ⟨d, hd, he⟩ := switchAcc_rows_edge params i row acc r1 r2 e
        (decide_switch i acc.st.holding1 e params.hysteresis_bps
          (cooldownOk params acc.st row)).2
      rw [hd, List.map_append]
      simp only [List.map_cons, List.map_nil]
      rw [he]
  · rw [Bool.not_eq_true] at hds
    refine ⟨_, stepCore_hold hds, ?_⟩
    rw [show ({ acc with rows := acc.rows ++ [holdDaily acc.st row r1 r2 e] } : Acc).rows
      = acc.rows ++ [holdDaily acc.st row r1 r2 e] from rfl, List.map_append]
    rfl

theorem runRows_edges (params : TradeParams) :
    ∀ (rows : List Row) (p : Row) (i : Nat) (acc : Acc),
      p.close1 ≠ 0 → p.close2 ≠ 0 →
      (∀ r ∈ rows, r.close1 ≠ 0 ∧ r.close2 ≠ 0 ∧ 0 < r.open1 ∧ 0 < r.open2) →
      -10000 < params.slippage_bps →
      ∃ accF, runRows params (some p) i acc rows = Except.ok accF ∧
        accF.rows.map DailyRow.edge_bps =
          acc.rows.map DailyRow.edge_bps ++ edgesTail p rows := by
  intro rows
  induction rows with
  | nil =>
      intro p i acc _ _ _ _
      exact ⟨acc, by simp [runRows], by simp [edgesTail]⟩
  | cons row rest ih =>
      intro p i acc hp1 hp2 hz hs
      obtain ⟨hc1, hc2, ho1, ho2⟩ := hz row (List.mem_cons_self _ _)
      obtain ⟨acc1, hstep, hmap⟩ := stepCore_ok_edge params i row acc
        ((row.open1 - p.close1) / p.close1) ((row.open2 - p.close2) / p.close2)
        (edgeOf p row) hc1 hc2 ho1 ho2 hs
      have hsr : stepRow params i (some p) row acc = Except.ok acc1 := by
        rw [stepRow_some_nonzero hp1 hp2, hstep]
      obtain ⟨accF, hrun, hmapF⟩ := ih row (i + 1) acc1 hc1 hc2
        (fun r hr => hz r (List.mem_cons_of_mem _ hr)) hs
      refine ⟨accF, ?_, ?_⟩
      · rw [runRows_cons_ok hsr rest, hrun]
      · rw [hmapF, hmap]
        simp [edgesTail, List.append_assoc]

/-! ### Claims -/

/-- C9: `exec_price` returns `open * (1 + slippage_bps/10000)` for a buy and
`open * (1 - slippage_bps/10000)` for a sell, and `fee_on_notional` returns
`|notional| * fee_bps/10000`, which is non-negative whenever `fee_bps ≥ 0`. -/
theorem C9_execution_model (o s n f : ℚ) :
    exec_price o s "buy" = o * (1 + s / 10000) ∧
    exec_price o s "sell" = o * (1 - s / 10000) ∧
    fee_on_notional n f = |n| * (f / 10000) ∧
    (0 ≤ f → 0 ≤ fee_on_notional n f) :=
  ⟨exec_price_buy o s, exec_price_sell o s, rfl,
    fun hf => mul_nonneg (abs_nonneg n) (div_nonneg hf (by norm_num))⟩

/-- Witness for C9 at concrete inputs. -/
theorem C9_witness :
    exec_price 2 5 "buy" = 2 * (1 + 5 / 10000) ∧
    exec_price 2 5 "sell" = 2 * (1 - 5 / 10000) ∧
    fee_on_notional 4 3 = |(4 : ℚ)| * (3 / 10000) ∧
    ((0 : ℚ) ≤ 3 ∧ 0 ≤ fee_on_notional 4 3) :=
  ⟨(C9_execution_model 2 5 4 3).1, (C9_execution_model 2 5 4 3).2.1,
    (C9_execution_model 2 5 4 3).2.2.1,
    by norm_num, (C9_execution_model 2 5 4 3).2.2.2 (by norm_num)⟩

/-- C3 (amended): `align_two` does not fail on an empty input; it returns
the empty aligned table whenever either input table is empty (the emptiness
check that raises lives in the data fetcher, not in the aligner). -/
theorem C3_align_empty :
    (∀ right : List RawRow, align_two [] right = []) ∧
    (∀ left : List RawRow, align_two left [] = []) := by
  constructor
  · intro right
    rfl
  · intro left
    have hj : joinInner left [] = [] := by
      induction left with
      | nil => rfl
      | cons l ls ih => simp [joinInner] at ih ⊢
    rw [align_two, hj]
    rfl

/-- Counterexample to C3 as stated: with an empty left table and a nonempty
right table, `align_two` returns an empty aligned table instead of failing. -/
theorem C3_counterexample : align_two [] [rawEx] = [] := rfl

/-- C8: the standalone decision of signal2.py coincides with the engine's
per-date hysteresis decision (`decide_switch`, the decision of steps 1-3 of
the loop) whenever the date is not the first row and cooldown permits, and
on a switch the engine's target is asset 2 exactly when asset 1 was held. -/
theorem C8_signal_matches_engine (o1 c1p o2 c2p delta : ℚ) (i : Nat) (h1 : Bool)
    (hi : 0 < i) :
    signal2_decision o1 c1p o2 c2p (if h1 then "A" else "B") delta =
      (decide_switch i h1 (((o2 - c2p) / c2p - (o1 - c1p) / c1p) * 10000) delta true).1 ∧
    (decide_switch i h1 (((o2 - c2p) / c2p - (o1 - c1p) / c1p) * 10000) delta true).2 =
      ((decide_switch i h1 (((o2 - c2p) / c2p - (o1 - c1p) / c1p) * 10000) delta true).1
        && h1) := by
  have h01 : 0 < i ∧ (true : Bool) = true := ⟨hi, rfl⟩
  cases h1 with
  | true =>
      have hA : signal2_decision o1 c1p o2 c2p (if (true : Bool) then "A" else "B") delta
          = decide (delta < ((o2 - c2p) / c2p - (o1 - c1p) / c1p) * 10000) := rfl
      by_cases hlt : delta < ((o2 - c2p) / c2p - (o1 - c1p) / c1p) * 10000
      · rw [hA, decide_switch, if_pos h01, if_pos ⟨rfl, hlt⟩]
        exact ⟨decide_eq_true hlt, rfl⟩
      · rw [hA, decide_switch, if_pos h01, if_neg (fun hc => hlt hc.2),
          if_neg (fun hc => absurd hc.1 (by simp))]
        exact ⟨decide_eq_false hlt, rfl⟩
  | false =>
      have hB : signal2_decision o1 c1p o2 c2p (if (false : Bool) then "A" else "B") delta
          = decide (delta < -(((o2 - c2p) / c2p - (o1 - c1p) / c1p) * 10000)) := rfl
      by_cases hlt : ((o2 - c2p) / c2p - (o1 - c1p) / c1p) * 10000 < -delta
      · rw [hB, decide_switch, if_pos h01,
          if_neg (fun hc => absurd hc.1 (by simp)), if_pos ⟨rfl, hlt⟩]
        exact ⟨decide_eq_true (by linarith), rfl⟩
      · rw [hB, decide_switch, if_pos h01,
          if_neg (fun hc => absurd hc.1 (by simp)), if_neg (fun hc => hlt hc.2)]
        exact ⟨decide_eq_false (fun hdl => hlt (by linarith)), rfl⟩

theorem runW : backtest_switching dataW 1 0 0 pW = Except.ok (resW, statsW) := by
  norm_num [backtest_switching, runRows, stepRow, stepCore, decide_switch, cooldownOk,
    switchAcc, switchRecOf, sellLeg, buyPx, holdDaily, initAcc, mkStats, exec_price,
    fee_on_notional, pyLower_buy, pyLower_sell, sell_ne_buy, dataW, wrow0, wrow1, wrow2,
    pW, recW1, recW2, resW, statsW, Int.floor_eq_iff]

/-- C4: every pair of consecutive recorded switches is at least
`cooldown_days` calendar days apart, measured by date difference. -/
theorem C4_cooldown_invariant (data : List Row) (s1 s2 : Int) (cash : ℚ)
    (params : TradeParams) (res : List DailyRow) (stats : Stats)
    (h : backtest_switching data s1 s2 cash params = Except.ok (res, stats)) :
    List.Chain' (fun d1 d2 => params.cooldown_days ≤ d2 - d1)
      (stats.log.map SwitchRec.date) := by
  obtain ⟨accF, hrun, hres, hstats⟩ := backtest_ok_inv h
  have hP : List.Chain' (fun d1 d2 => params.cooldown_days ≤ d2 - d1)
        (accF.log.map SwitchRec.date) ∧
      accF.st.last_switch_date = (accF.log.map SwitchRec.date).getLast? := by
    refine runRows_preserve params
      (fun acc => List.Chain' (fun d1 d2 => params.cooldown_days ≤ d2 - d1)
          (acc.log.map SwitchRec.date) ∧
        acc.st.last_switch_date = (acc.log.map SwitchRec.date).getLast?)
      (fun _ => True) ?_ data none 0 _ accF (fun _ _ => trivial)
      (by simp [initAcc]) hrun
    intro i prev row acc acc' _ hPacc hstep
    obtain ⟨r1, r2, e, hcore⟩ := stepRow_ok_inv hstep
    rcases stepCore_ok_inv hcore with ⟨hds, hacc'⟩ | hacc'
    · obtain ⟨hi, hcd⟩ := decide_switch_fst_pos hds
      subst hacc'
      constructor
      · rw [switchAcc_log, List.map_append, List.chain'_append]
        refine ⟨hPacc.1, by simp, ?_⟩
        intro x hx y hy
        simp only [List.map_cons, List.map_nil, List.head?_cons, Option.mem_def,
          Option.some.injEq] at hy
        have hlast : acc.st.last_switch_date = some x := by
          rw [hPacc.2]
          exact Option.mem_def.mp hx
        rw [cooldownOk, hlast] at hcd
        have hle := of_decide_eq_true hcd
        rw [← hy, switchRecOf_date]
        exact hle
      · rw [switchAcc_st, switchAcc_log, List.map_append]
        simp [switchRecOf_date, List.getLast?_concat]
    · subst hacc'
      exact hPacc
  rw [hstats]
  exact hP.1

/-- Witness for C4: the two switches of the witness run are one calendar day
apart with a one-day cooldown. -/
theorem C4_witness :
    backtest_switching dataW 1 0 0 pW = Except.ok (resW, statsW) ∧
    List.Chain' (fun d1 d2 => pW.cooldown_days ≤ d2 - d1)
      (statsW.log.map SwitchRec.date) :=
  ⟨runW, C4_cooldown_invariant dataW 1 0 0 pW resW statsW runW⟩

/-- C5: every recorded switch fired on the held asset's side with a strict
comparison: holding asset 1 requires `edge > hysteresis`, holding asset 2
requires `edge < -hysteresis`, so `|edge| > hysteresis` strictly. -/
theorem C5_hysteresis_invariant (data : List Row) (s1 s2 : Int) (cash : ℚ)
    (params : TradeParams) (res : List DailyRow) (stats : Stats)
    (h : backtest_switching data s1 s2 cash params = Except.ok (res, stats)) :
    ∀ srec ∈ stats.log,
      (srec.holding1_before = true →
        params.hysteresis_bps < srec.edge_bps ∧ srec.target_is_2 = true) ∧
      (srec.holding1_before = false →
        srec.edge_bps < -params.hysteresis_bps ∧ srec.target_is_2 = false) ∧
      params.hysteresis_bps < |srec.edge_bps| := by
  obtain ⟨accF, hrun, hres, hstats⟩ := backtest_ok_inv h
  have hP : ∀ srec ∈ accF.log,
      (srec.holding1_before = true →
        params.hysteresis_bps < srec.edge_bps ∧ srec.target_is_2 = true) ∧
      (srec.holding1_before = false →
        srec.edge_bps < -params.hysteresis_bps ∧ srec.target_is_2 = false) ∧
      params.hysteresis_bps < |srec.edge_bps| := by
    refine runRows_preserve params
      (fun acc => ∀ srec ∈ acc.log,
        (srec.holding1_before = true →
          params.hysteresis_bps < srec.edge_bps ∧ srec.target_is_2 = true) ∧
        (srec.holding1_before = false →
          srec.edge_bps < -params.hysteresis_bps ∧ srec.target_is_2 = false) ∧
        params.hysteresis_bps < |srec.edge_bps|)
      (fun _ => True) ?_ data none 0 _ accF (fun _ _ => trivial)
      (by simp [initAcc]) hrun
    intro i prev row acc acc' _ hPacc hstep
    obtain ⟨r1, r2, e, hcore⟩ := stepRow_ok_inv hstep
    rcases stepCore_ok_inv hcore with ⟨hds, hacc'⟩ | hacc'
    · subst hacc'
      intro srec hmem
      rw [switchAcc_log] at hmem
      rcases List.mem_append.mp hmem with hm | hm
      · exact hPacc srec hm
      · rw [List.mem_singleton] at hm
        subst hm
        obtain ⟨he, hh, ht⟩ := switchRecOf_decision_fields params i row acc.st e
          (decide_switch i acc.st.holding1 e params.hysteresis_bps
            (cooldownOk params acc.st row)).2
        rcases decide_switch_fst_char hds with ⟨hh1, hlt, ht1⟩ | ⟨hh1, hlt, ht1⟩
        · refine ⟨fun _ => ⟨?_, ?_⟩, fun hcon => ?_, ?_⟩
          · rw [he]; exact hlt
          · rw [ht]; exact ht1
          · rw [hh, hh1] at hcon
            exact absurd hcon (by simp)
          · rw [he]; exact lt_of_lt_of_le hlt (le_abs_self e)
        · refine ⟨fun hcon => ?_, fun _ => ⟨?_, ?_⟩, ?_⟩
          · rw [hh, hh1] at hcon
            exact absurd hcon (by simp)
          · rw [he]; exact hlt
          · rw [ht]; exact ht1
          · rw [he]
            have hneg : params.hysteresis_bps < -e := by linarith
            exact lt_of_lt_of_le hneg (neg_le_abs e)
    · subst hacc'
      exact hPacc
  rw [hstats]
  exact hP

/-- Witness for C5, instantiated at the first recorded switch of the
witness run. -/
theorem C5_witness :
    (recW1.holding1_before = true →
      pW.hysteresis_bps < recW1.edge_bps ∧ recW1.target_is_2 = true) ∧
    (recW1.holding1_before = false →
      recW1.edge_bps < -pW.hysteresis_bps ∧ recW1.target_is_2 = false) ∧
    pW.hysteresis_bps < |recW1.edge_bps| :=
  C5_hysteresis_invariant dataW 1 0 0 pW resW statsW runW recW1 (by simp [statsW])

/-- C10: the hit rate is undefined (NaN, modelled `none`) exactly when no
switch was recorded; otherwise exactly one same-day hit observation exists
per switch, each comparing the closes of the asset switched into and out of,
and the hit rate is the fraction of true observations. -/
theorem C10_hit_rate (data : List Row) (s1 s2 : Int) (cash : ℚ)
    (params : TradeParams) (res : List DailyRow) (stats : Stats)
    (h : backtest_switching data s1 s2 cash params = Except.ok (res, stats)) :
    (stats.hitRate = none ↔ stats.switches = 0) ∧
    stats.hits.length = stats.switches ∧
    stats.hits = stats.log.map SwitchRec.hit ∧
    (∀ srec ∈ stats.log, srec.hit =
      (if srec.target_is_2 then decide (1 < srec.close2_today / srec.close1_today)
       else decide (1 < srec.close1_today / srec.close2_today))) ∧
    (0 < stats.switches →
      stats.hitRate = some ((stats.hits.count true : ℚ) / (stats.hits.length : ℚ))) := by
  obtain ⟨accF, hrun, hres, hstats⟩ := backtest_ok_inv h
  have hP : accF.hits = accF.log.map SwitchRec.hit ∧
      accF.switches = accF.log.length ∧
      ∀ srec ∈ accF.log, srec.hit =
        (if srec.target_is_2 then decide (1 < srec.close2_today / srec.close1_today)
         else decide (1 < srec.close1_today / srec.close2_today)) := by
    refine runRows_preserve params
      (fun acc => acc.hits = acc.log.map SwitchRec.hit ∧
        acc.switches = acc.log.length ∧
        ∀ srec ∈ acc.log, srec.hit =
          (if srec.target_is_2 then decide (1 < srec.close2_today / srec.close1_today)
           else decide (1 < srec.close1_today / srec.close2_today)))
      (fun _ => True) ?_ data none 0 _ accF (fun _ _ => trivial)
      (by simp [initAcc]) hrun
    intro i prev row acc acc' _ hPacc hstep
    obtain ⟨r1, r2, e, hcore⟩ := stepRow_ok_inv hstep
    rcases stepCore_ok_inv hcore with ⟨hds, hacc'⟩ | hacc'
    · obtain ⟨hi, -⟩ := decide_switch_fst_pos hds
      subst hacc'
      refine ⟨?_, ?_, ?_⟩
      · rw [switchAcc_hits, if_pos hi, switchAcc_log, List.map_append, hPacc.1]
        rfl
      · rw [switchAcc_switches, switchAcc_log, List.length_append, hPacc.2.1]
        rfl
      · intro srec hmem
        rw [switchAcc_log] at hmem
        rcases List.mem_append.mp hmem with hm | hm
        · exact hPacc.2.2 srec hm
        · rw [List.mem_singleton] at hm
          subst hm
          rfl
    · subst hacc'
      exact hPacc
  have hlen : accF.hits.length = accF.log.length := by
    rw [hP.1, List.length_map]
  refine hstats ▸ ⟨?_, ?_, hP.1, hP.2.2, ?_⟩
  · show (if accF.hits.isEmpty then none
        else some ((accF.hits.count true : ℚ) / (accF.hits.length : ℚ))) = none
      ↔ accF.switches = 0
    by_cases he : accF.hits.isEmpty
    · rw [if_pos he]
      have h0 : accF.hits.length = 0 := by
        rw [List.isEmpty_iff] at he
        rw [he]
        rfl
      simp [hP.2.1, ← hlen, h0]
    · rw [if_neg he]
      rw [List.isEmpty_iff] at he
      have h0 : accF.hits.length ≠ 0 := fun hc => he (List.length_eq_zero.mp hc)
      simp only [hP.2.1, ← hlen]
      constructor
      · intro hc
        exact absurd hc (by simp)
      · intro hc
        exact absurd hc h0
  · show accF.hits.length = accF.switches
    rw [hlen, hP.2.1]
  · intro hpos
    have hpos' : 0 < accF.hits.length := by
      have h1 : 0 < accF.switches := hpos
      rw [hP.2.1, ← hlen] at h1
      exact h1
    have hne : ¬accF.hits.isEmpty = true := by
      rw [List.isEmpty_iff]
      intro hc
      rw [hc] at hpos'
      exact absurd hpos' (by simp)
    show (if accF.hits.isEmpty then none
        else some ((accF.hits.count true : ℚ) / (accF.hits.length : ℚ)))
      = some (((mkStats accF).hits.count true : ℚ) / ((mkStats accF).hits.length : ℚ))
    rw [if_neg hne]
    rfl

/-- Witness for C10, instantiated at the witness run and its first switch. -/
theorem C10_witness :
    (statsW.hitRate = none ↔ statsW.switches = 0) ∧
    statsW.hits.length = statsW.switches ∧
    statsW.hits = statsW.log.map SwitchRec.hit ∧
    recW1.hit = (if recW1.target_is_2 then decide (1 < recW1.close2_today / recW1.close1_today)
      else decide (1 < recW1.close1_today / recW1.close2_today)) ∧
    (0 < statsW.switches →
      statsW.hitRate = some ((statsW.hits.count true : ℚ) / (statsW.hits.length : ℚ))) :=
  ⟨(C10_hit_rate dataW 1 0 0 pW resW statsW runW).1,
   (C10_hit_rate dataW 1 0 0 pW resW statsW runW).2.1,
   (C10_hit_rate dataW 1 0 0 pW resW statsW runW).2.2.1,
   (C10_hit_rate dataW 1 0 0 pW resW statsW runW).2.2.2.1 recW1 (by simp [statsW]),
   (C10_hit_rate dataW 1 0 0 pW resW statsW runW).2.2.2.2⟩

/-- C1 (amended): at every switch the bought share count is
`floor(cash / fill_price(open_target, slippage_bps, buy))`, so the purchase
notional never exceeds the available cash and the cash is non-negative right
after the notional is subtracted — for every `fee_bps`; when `fee_bps = 0`
the buy-leg fee is zero, so the cash after the complete buy leg is also
non-negative.  (With a positive `fee_bps` the buy-leg fee may overdraw the
cash residual.) -/
theorem C1_buy_leg_cash (data : List Row) (s1 s2 : Int) (cash : ℚ)
    (params : TradeParams) (res : List DailyRow) (stats : Stats)
    (hs : -10000 < params.slippage_bps)
    (hopen : ∀ r ∈ data, 0 < r.open1 ∧ 0 < r.open2)
    (h : backtest_switching data s1 s2 cash params = Except.ok (res, stats)) :
    ∀ srec ∈ stats.log,
      srec.new_shares = ⌊srec.cash_before_buy / srec.buy_px⌋ ∧
      srec.cash_after_notional =
        srec.cash_before_buy - (srec.new_shares : ℚ) * srec.buy_px ∧
      0 ≤ srec.cash_after_notional ∧
      (params.fee_bps = 0 →
        srec.cash_after_buyleg = srec.cash_after_notional ∧
        0 ≤ srec.cash_after_buyleg) := by
  obtain ⟨accF, hrun, hres, hstats⟩ := backtest_ok_inv h
  have hP : ∀ srec ∈ accF.log,
      srec.new_shares = ⌊srec.cash_before_buy / srec.buy_px⌋ ∧
      srec.cash_after_notional =
        srec.cash_before_buy - (srec.new_shares : ℚ) * srec.buy_px ∧
      0 ≤ srec.cash_after_notional ∧
      (params.fee_bps = 0 →
        srec.cash_after_buyleg = srec.cash_after_notional ∧
        0 ≤ srec.cash_after_buyleg) := by
    refine runRows_preserve params
      (fun acc => ∀ srec ∈ acc.log,
        srec.new_shares = ⌊srec.cash_before_buy / srec.buy_px⌋ ∧
        srec.cash_after_notional =
          srec.cash_before_buy - (srec.new_shares : ℚ) * srec.buy_px ∧
        0 ≤ srec.cash_after_notional ∧
        (params.fee_bps = 0 →
          srec.cash_after_buyleg = srec.cash_after_notional ∧
          0 ≤ srec.cash_after_buyleg))
      (fun r => 0 < r.open1 ∧ 0 < r.open2) ?_ data none 0 _ accF hopen
      (by simp [initAcc]) hrun
    intro i prev row acc acc' hQ hPacc hstep
    obtain ⟨r1, r2, e, hcore⟩ := stepRow_ok_inv hstep
    rcases stepCore_ok_inv hcore with ⟨hds, hacc'⟩ | hacc'
    · subst hacc'
      intro srec hmem
      rw [switchAcc_log] at hmem
      rcases List.mem_append.mp hmem with hm | hm
      · exact hPacc srec hm
      · rw [List.mem_singleton] at hm
        subst hm
        obtain ⟨hcb, hbx, hns, hcan, hcab⟩ := switchRecOf_buy_fields params i row acc.st e
          (decide_switch i acc.st.holding1 e params.hysteresis_bps
            (cooldownOk params acc.st row)).2
        have hb : 0 < buyPx params row
            (decide_switch i acc.st.holding1 e params.hysteresis_bps
              (cooldownOk params acc.st row)).2 := buyPx_pos hQ.1 hQ.2 hs
        have hfloor : ((⌊(sellLeg params row acc.st).1 / buyPx params row
              (decide_switch i acc.st.holding1 e params.hysteresis_bps
                (cooldownOk params acc.st row)).2⌋ : Int) : ℚ) *
            buyPx params row
              (decide_switch i acc.st.holding1 e params.hysteresis_bps
                (cooldownOk params acc.st row)).2 ≤ (sellLeg params row acc.st).1 := by
          calc ((⌊(sellLeg params row acc.st).1 / buyPx params row
                (decide_switch i acc.st.holding1 e params.hysteresis_bps
                  (cooldownOk params acc.st row)).2⌋ : Int) : ℚ) *
              buyPx params row
                (decide_switch i acc.st.holding1 e params.hysteresis_bps
                  (cooldownOk params acc.st row)).2
              ≤ ((sellLeg params row acc.st).1 / buyPx params row
                (decide_switch i acc.st.holding1 e params.hysteresis_bps
                  (cooldownOk params acc.st row)).2) *
              buyPx params row
                (decide_switch i acc.st.holding1 e params.hysteresis_bps
                  (cooldownOk params acc.st row)).2 :=
              mul_le_mul_of_nonneg_right (Int.floor_le _) hb.le
            _ = (sellLeg params row acc.st).1 := div_mul_cancel₀ _ hb.ne'
        have hcan0 : 0 ≤ (switchRecOf params i row acc.st e
            (decide_switch i acc.st.holding1 e params.hysteresis_bps
              (cooldownOk params acc.st row)).2).cash_after_notional := by
          rw [hcan]
          linarith
        have hcabe : params.fee_bps = 0 →
            (switchRecOf params i row acc.st e
              (decide_switch i acc.st.holding1 e params.hysteresis_bps
                (cooldownOk params acc.st row)).2).cash_after_buyleg =
            (switchRecOf params i row acc.st e
              (decide_switch i acc.st.holding1 e params.hysteresis_bps
                (cooldownOk params acc.st row)).2).cash_after_notional := by
          intro hfee
          rw [hcab, hfee]
          simp [fee_on_notional]
        exact ⟨by rw [hns, hcb, hbx], by rw [hcan, hcb, hns, hbx], hcan0,
          fun hfee => ⟨hcabe hfee, (hcabe hfee) ▸ hcan0⟩⟩
    · subst hacc'
      exact hPacc
  rw [hstats]
  exact hP

theorem runC1 : backtest_switching [c1a, c1b] 1 0 0 pC1 =
    Except.ok (resC1, statsC1) := by
  norm_num [backtest_switching, runRows, stepRow, stepCore, decide_switch, cooldownOk,
    switchAcc, switchRecOf, sellLeg, buyPx, holdDaily, initAcc, mkStats, exec_price,
    fee_on_notional, pyLower_buy, pyLower_sell, sell_ne_buy, c1a, c1b, pC1,
    resC1, statsC1, recC1, Int.floor_eq_iff]

/-- Witness for C1, instantiated at the single switch of the fee-overdraw
run, whose 2000 bps fee exercises the unconditional floored-notional part. -/
theorem C1_witness :
    (-10000 : ℚ) < pC1.slippage_bps ∧
    (recC1.new_shares = ⌊recC1.cash_before_buy / recC1.buy_px⌋ ∧
      recC1.cash_after_notional =
        recC1.cash_before_buy - (recC1.new_shares : ℚ) * recC1.buy_px ∧
      0 ≤ recC1.cash_after_notional ∧
      (pC1.fee_bps = 0 →
        recC1.cash_after_buyleg = recC1.cash_after_notional ∧
        0 ≤ recC1.cash_after_buyleg)) :=
  ⟨by norm_num [pC1],
    C1_buy_leg_cash [c1a, c1b] 1 0 0 pC1 resC1 statsC1 (by norm_num [pC1])
      (by
        intro r hr
        simp only [List.mem_cons, List.not_mem_nil, or_false] at hr
        rcases hr with rfl | rfl <;> norm_num [c1a, c1b])
      runC1 recC1 (by simp [statsC1])⟩

/-- C7: the engine records no switch on the first date: the first daily row
carries zero overnight returns and zero edge, its position flag matches the
initial holding (`+1` iff `shares1_init > 0`), and every recorded switch has
a positive row index. -/
theorem C7_first_day (first : Row) (rest : List Row) (s1 s2 : Int) (cash : ℚ)
    (params : TradeParams) (res : List DailyRow) (stats : Stats)
    (h : backtest_switching (first :: rest) s1 s2 cash params =
      Except.ok (res, stats)) :
    res.head? = some (firstDaily first s1 s2 cash) ∧
    ∀ srec ∈ stats.log, 0 < srec.idx := by
  obtain ⟨accF, hrun, hres, hstats⟩ := backtest_ok_inv h
  rw [runRows] at hrun
  have hstep1 : stepRow params 0 none first (initAcc s1 s2 cash) =
      Except.ok { initAcc s1 s2 cash with
        rows := [holdDaily (initAcc s1 s2 cash).st first 0 0 0] } :=
    stepCore_hold (by rw [decide_switch_zero])
  rw [hstep1] at hrun
  have hP : accF.rows.head? = some (holdDaily (initAcc s1 s2 cash).st first 0 0 0) ∧
      ∀ srec ∈ accF.log, 0 < srec.idx := by
    refine runRows_preserve params
      (fun acc => acc.rows.head? = some (holdDaily (initAcc s1 s2 cash).st first 0 0 0) ∧
        ∀ srec ∈ acc.log, 0 < srec.idx)
      (fun _ => True) ?_ rest (some first) 1
      { initAcc s1 s2 cash with
        rows := [holdDaily (initAcc s1 s2 cash).st first 0 0 0] }
      accF (fun _ _ => trivial) ⟨rfl, by simp [initAcc]⟩ hrun
    intro i prev row acc acc' _ hPacc hstep
    obtain ⟨r1, r2, e, hcore⟩ := stepRow_ok_inv hstep
    obtain ⟨t, ht⟩ : ∃ t, acc.rows = holdDaily (initAcc s1 s2 cash).st first 0 0 0 :: t := by
      cases hrows : acc.rows with
      | nil => rw [hrows] at hPacc; exact absurd hPacc.1 (by simp)
      | cons a t =>
          rw [hrows] at hPacc
          exact ⟨t, by rw [List.head?_cons, Option.some.injEq] at hPacc; rw [hPacc.1]⟩
    rcases stepCore_ok_inv hcore with ⟨hds, hacc'⟩ | hacc'
    · obtain ⟨hi, -⟩ := decide_switch_fst_pos hds
      subst hacc'
      constructor
      · obtain ⟨d, hd⟩ := switchAcc_rows params i row acc r1 r2 e
          (decide_switch i acc.st.holding1 e params.hysteresis_bps
            (cooldownOk params acc.st row)).2
        rw [hd, ht]
        rfl
      · intro srec hmem
        rw [switchAcc_log] at hmem
        rcases List.mem_append.mp hmem with hm | hm
        · exact hPacc.2 srec hm
        · rw [List.mem_singleton] at hm
          subst hm
          rw [switchRecOf_idx]
          exact hi
    · subst hacc'
      refine ⟨?_, hPacc.2⟩
      rw [show ({ acc with rows := acc.rows ++ [holdDaily acc.st row r1 r2 e] } : Acc).rows
        = acc.rows ++ [holdDaily acc.st row r1 r2 e] from rfl, ht]
      rfl
  constructor
  · rw [hres, hP.1]
    have hfd : holdDaily (initAcc s1 s2 cash).st first 0 0 0 =
        firstDaily first s1 s2 cash := by
      rw [holdDaily, firstDaily]
      by_cases h1 : 0 < s1 <;> simp [initAcc, h1]
    rw [hfd]
  · rw [hstats]
    exact hP.2

/-- Witness for C7 on the witness run. -/
theorem C7_witness :
    resW.head? = some (firstDaily wrow0 1 0 0) ∧
    0 < recW1.idx :=
  ⟨(C7_first_day wrow0 [wrow1, wrow2] 1 0 0 pW resW statsW runW).1,
   (C7_first_day wrow0 [wrow1, wrow2] 1 0 0 pW resW statsW runW).2 recW1
     (by simp [statsW])⟩

/-- C6: when no edge ever strictly exceeds the hysteresis threshold (for
example an unreachable `1e9` bps threshold), the run completes with zero
switches and the active equity curve equals the passive buy-and-hold curve
`shares1_init * close1 + shares2_init * close2 + cash_init` at every date. -/
theorem C6_unreachable_threshold (data : List Row) (s1 s2 : Int) (cash : ℚ)
    (params : TradeParams)
    (hz : ∀ r ∈ data, r.close1 ≠ 0 ∧ r.close2 ≠ 0)
    (hc : List.Chain' (fun x y => |edgeOf x y| ≤ params.hysteresis_bps) data) :
    runSwitchCount data s1 s2 cash params = some 0 ∧
    runActiveCurve data s1 s2 cash params = some (passive_equity data s1 s2 cash) := by
  have hrun := runRows_hold_all params data hz hc (initAcc s1 s2 cash)
  have hbt : backtest_switching data s1 s2 cash params =
      Except.ok
        (({ initAcc s1 s2 cash with
            rows := (initAcc s1 s2 cash).rows ++
              holdAll (initAcc s1 s2 cash).st data } : Acc).rows,
         mkStats { initAcc s1 s2 cash with
            rows := (initAcc s1 s2 cash).rows ++
              holdAll (initAcc s1 s2 cash).st data }) := by
    rw [backtest_switching, hrun]
  constructor
  · rw [runSwitchCount, runStats, hbt]
    rfl
  · rw [runActiveCurve, runDaily, hbt]
    show some ((((initAcc s1 s2 cash).rows ++
        holdAll (initAcc s1 s2 cash).st data)).map dailyPoint)
      = some (passive_equity data s1 s2 cash)
    rw [show ((initAcc s1 s2 cash).rows ++ holdAll (initAcc s1 s2 cash).st data
      : List DailyRow) = holdAll (initAcc s1 s2 cash).st data from rfl]
    rw [holdAll_curve]
    rfl

/-- Witness for C6 on the witness table with an unreachable threshold. -/
theorem C6_witness :
    runSwitchCount dataW 1 0 0 pW6 = some 0 ∧
    runActiveCurve dataW 1 0 0 pW6 = some (passive_equity dataW 1 0 0) :=
  C6_unreachable_threshold dataW 1 0 0 pW6
    (by
      intro r hr
      simp only [dataW, List.mem_cons, List.not_mem_nil, or_false] at hr
      rcases hr with rfl | rfl | rfl <;> norm_num [wrow0, wrow1, wrow2])
    (by
      norm_num [dataW, List.chain'_cons, List.chain'_singleton, edgeOf,
        wrow0, wrow1, wrow2, pW6, abs_le])

/-- C2 (amended): after alignment a previous close is never missing, and
the code defines no `DataIntegrityError`.  A zero previous close for either
asset, at any row of any aligned table that still has a successor date,
makes the run abort with the float division-by-zero error and no partial
results.  A negative previous close is not detected: on every aligned table
whose closes are all nonzero (negative values allowed) and whose opens are
positive, with in-range slippage, the run completes and records at every
date exactly the overnight-return edge — zero on the first date, the ratio
difference (including ratios computed from negative closes) afterwards. -/
theorem C2_prev_close_failure :
    (∀ (data : List Row) (s1 s2 : Int) (cash : ℚ) (params : TradeParams),
      (∃ q ∈ data.dropLast, q.close1 = 0 ∨ q.close2 = 0) →
      backtest_switching data s1 s2 cash params = Except.error zeroDivisionMsg) ∧
    (∀ (data : List Row) (s1 s2 : Int) (cash : ℚ) (params : TradeParams),
      (∀ r ∈ data, r.close1 ≠ 0 ∧ r.close2 ≠ 0 ∧ 0 < r.open1 ∧ 0 < r.open2) →
      -10000 < params.slippage_bps →
      runEdges data s1 s2 cash params = some (edgesOf data)) := by
  constructor
  · intro data s1 s2 cash params hdef
    rw [backtest_switching, runRows_zero_abort params data none 0 _ (Or.inr hdef)]
  · intro data s1 s2 cash params hz hs
    cases data with
    | nil => rfl
    | cons r rest =>
        obtain ⟨hc1, hc2, -, -⟩ := hz r (List.mem_cons_self _ _)
        have h1 : stepRow params 0 none r (initAcc s1 s2 cash) =
            Except.ok { initAcc s1 s2 cash with
              rows := (initAcc s1 s2 cash).rows ++
                [holdDaily (initAcc s1 s2 cash).st r 0 0 0] } :=
          stepCore_hold (by rw [decide_switch_zero])
        obtain ⟨accF, hrun, hmap⟩ := runRows_edges params rest r 1
          { initAcc s1 s2 cash with
            rows := (initAcc s1 s2 cash).rows ++
              [holdDaily (initAcc s1 s2 cash).st r 0 0 0] }
          hc1 hc2 (fun x hx => hz x (List.mem_cons_of_mem _ hx)) hs
        rw [runEdges, runDaily, backtest_switching, runRows_cons_ok h1 rest, hrun]
        show some (accF.rows.map DailyRow.edge_bps) = some (edgesOf (r :: rest))
        rw [hmap]
        rfl

/-- Witness for C2 at concrete tables: a zero previous close aborts the run;
a table with a negative previous close completes with the propagated edges. -/
theorem C2_witness :
    backtest_switching [c2z, c2b] 1 0 0 pC2 = Except.error zeroDivisionMsg ∧
    runEdges [c2a, c2b] 1 0 0 pC2 = some (edgesOf [c2a, c2b]) :=
  ⟨C2_prev_close_failure.1 [c2z, c2b] 1 0 0 pC2
     ⟨c2z, by
        rw [show ([c2z, c2b] : List Row).dropLast = [c2z] from rfl]
        exact List.mem_singleton.mpr rfl,
      Or.inl rfl⟩,
   C2_prev_close_failure.2 [c2a, c2b] 1 0 0 pC2
     (by
       intro r hr
       simp only [List.mem_cons, List.not_mem_nil, or_false] at hr
       rcases hr with rfl | rfl <;> norm_num [c2a, c2b])
     (by norm_num [pC2])⟩

/-- Counterexample to C2 as stated: on a table whose first close of asset 1
is negative, the run does not abort with any error: it completes and the
edge computed from the negative close (20000 bps) is propagated. -/
theorem C2_counterexample :
    runDaily [c2a, c2b] 1 0 0 pC2 = some [dC2a, dC2b] ∧ dC2b.edge_bps = 20000 := by
  refine ⟨?_, rfl⟩
  norm_num [runDaily, backtest_switching, runRows, stepRow, stepCore, decide_switch,
    cooldownOk, holdDaily, initAcc, mkStats, c2a, c2b, pC2, dC2a, dC2b, Except.toOption]

/-- Counterexample to C1 as stated: with a 2000 bps fee the single switch of
this run leaves a cash balance of -64 right after the buy leg (notional and
buy-leg fee subtracted), although the share count was floored. -/
theorem C1_counterexample :
    runStats [c1a, c1b] 1 0 0 pC1 = some statsC1 ∧
    statsC1.log.map SwitchRec.cash_after_buyleg = [-64] ∧ (-64 : ℚ) < 0 := by
  refine ⟨?_, rfl, by norm_num⟩
  norm_num [runStats, backtest_switching, runRows, stepRow, stepCore, decide_switch,
    cooldownOk, switchAcc, switchRecOf, sellLeg, buyPx, holdDaily, initAcc, mkStats,
    exec_price, fee_on_notional, pyLower_buy, pyLower_sell, sell_ne_buy, c1a, c1b, pC1,
    statsC1, recC1, Int.floor_eq_iff, Except.toOption]

/-- Witness for C8 at concrete inputs. -/
theorem C8_witness :
    (0 : Nat) < 1 ∧
    (signal2_decision 2 1 3 1 (if (true : Bool) then "A" else "B") 7 =
      (decide_switch 1 true ((((3 : ℚ) - 1) / 1 - (2 - 1) / 1) * 10000) 7 true).1 ∧
    (decide_switch 1 true ((((3 : ℚ) - 1) / 1 - (2 - 1) / 1) * 10000) 7 true).2 =
      ((decide_switch 1 true ((((3 : ℚ) - 1) / 1 - (2 - 1) / 1) * 10000) 7 true).1
        && true)) :=
  ⟨by norm_num, C8_signal_matches_engine 2 1 3 1 7 1 true (by norm_num)⟩

end BinarySignal
